import Mathlib

/-!
Verification of the sqlx-named-bind library.

Shallow embedding of the repository's source:
- `builder.rs` : `build_query`, replacing named placeholders `:name` by the
  positional marker `?` using the fixed regex pattern `:[a-zA-Z0-9_]+`;
- `query.rs` : `PreparedQuery` (sql, order, binder) with `new` and `execute`;
- `query_as.rs` : `PreparedQueryAs` with `new`, `fetch_all`, `fetch_one`,
  `fetch_optional`;
- `error.rs` : the `Error` enumeration (`Parse`, `Database`,
  `UnboundPlaceholder`).

The regex engine's matcher for the fixed pattern is embedded as the
left-to-right maximal-munch scanner `scanM`; `replace_all` and `find_iter`
are its two result components.  The Rust `FnMut` binder closure is embedded
as an explicit closure-state type `S` together with a step function
`S → Q → String → Q × S`.  The sqlx executor is an external collaborator:
query construction `sqlx::query(sql)` is a parameter `mkQuery`, and the
engine round trip is a parameter `run` returning rows or an engine error.
-/

namespace SqlxNamedBind

/-- A character matched by the character class of the fixed pattern
`:[a-zA-Z0-9_]+`: an ASCII letter, an ASCII digit, or an underscore. -/
def isWordChar (c : Char) : Bool :=
  c.isAlpha || c.isDigit || c == '_'

/-- The scanner, standing outside a match, enters a new match of the fixed
pattern at character `c` exactly when `c` is a colon whose next character is
a word character (the `+` in the pattern needs at least one). -/
def isEnter (c : Char) (rest : List Char) : Bool :=
  (c == ':') && rest.head?.any isWordChar

/-- The compiled matcher of the fixed pattern `:[a-zA-Z0-9_]+`, run over the
template with replacement text `?`.  State `none` is "outside a match";
state `some acc` is "inside a match", with `acc` holding the reversed word
characters read so far after the colon.  Returns the pair
(text with every match replaced by `?`  — Rust `replace_all`,
 list of matched substrings in textual order — Rust `find_iter`). -/
def scanM : Option (List Char) → List Char → List Char × List (List Char)
  | none, [] => ([], [])
  | some acc, [] => (['?'], [':' :: acc.reverse])
  | none, c :: rest =>
    if isEnter c rest then
      scanM (some []) rest
    else
      let p := scanM none rest
      (c :: p.1, p.2)
  | some acc, c :: rest =>
    if isWordChar c then
      scanM (some (c :: acc)) rest
    else if isEnter c rest then
      let p := scanM (some []) rest
      ('?' :: p.1, (':' :: acc.reverse) :: p.2)
    else
      let p := scanM none rest
      ('?' :: c :: p.1, (':' :: acc.reverse) :: p.2)

/-- Running the compiled matcher over a template. -/
def scan (l : List Char) : List Char × List (List Char) :=
  scanM none l

/-- The error enumeration of `error.rs`.  The payloads of the wrapped
`regex::Error` and `sqlx::Error` are modelled as message strings. -/
inductive Error where
  | Parse (msg : String)
  | Database (msg : String)
  | UnboundPlaceholder (name : String)
deriving DecidableEq

/-- `Regex::new(r":[a-zA-Z0-9_]+")` as it appears in `build_query` and in
both `new` constructors: compiling this fixed, valid pattern always
succeeds, yielding the matcher `scan`. -/
def compilePlaceholderRegex : Except Error (List Char → List Char × List (List Char)) :=
  .ok scan

/-- `build_query` of `builder.rs`: compile the fixed pattern and replace
every match by the positional marker `?`. -/
def build_query (template : String) : Except Error String := do
  let rx ← compilePlaceholderRegex
  .ok (String.mk (rx template.data).1)

/-- `PreparedQuery` of `query.rs`: positional sql, placeholder order, and
the binder.  The Rust `FnMut` binder is embedded as closure state
`binderState : S` plus the pure step `binderStep`. -/
structure PreparedQuery (S Q : Type) where
  sql : String
  order : List String
  binderState : S
  binderStep : S → Q → String → Q × S

/-- `PreparedQuery::new`: run `find_iter` over the template collecting the
matched substrings into `order`, build the positional sql with
`build_query`, and store both with the binder. -/
def PreparedQuery.new {S Q : Type} (template : String) (s : S)
    (f : S → Q → String → Q × S) : Except Error (PreparedQuery S Q) := do
  let rx ← compilePlaceholderRegex
  let order := ((rx template.data).2).map (fun cs => String.mk cs)
  let sql ← build_query template
  .ok ⟨sql, order, s, f⟩

/-- The binder replay loop shared by `execute` and the three `fetch_*`
methods: `let mut q = ...; for key in order.iter() { q = binder(q, key); }`,
with the `FnMut` closure state threaded explicitly. -/
def bindLoop {S Q : Type} (f : S → Q → String → Q × S) :
    Q → S → List String → Q × S
  | q, s, [] => (q, s)
  | q, s, key :: keys =>
    let qs := f s q key
    bindLoop f qs.1 qs.2 keys

/-- `PreparedQuery::execute`: build a fresh builder from the stored sql
(`mkQuery` embeds `sqlx::query(sql)`), replay the binder over `order`, and
run it (`run` embeds `q.execute(executor)`, the engine round trip).  The
engine error is wrapped by the `?` operator through
`From<sqlx::Error> for Error`, i.e. `Error.Database`.  The returned
statement reflects the `&mut self` receiver: only the binder closure state
can change. -/
def PreparedQuery.execute {S Q A : Type} (st : PreparedQuery S Q)
    (mkQuery : String → Q) (run : Q → Except String A) :
    Except Error A × PreparedQuery S Q :=
  let qs := bindLoop st.binderStep (mkQuery st.sql) st.binderState st.order
  ((run qs.1).mapError Error.Database, { st with binderState := qs.2 })

/-- `PreparedQueryAs` of `query_as.rs`.  The row type `R` is phantom in the
fields (`_pd: PhantomData<R>` in the source); it is used by the fetch
methods. -/
structure PreparedQueryAs (S Q : Type) (R : Type) where
  sql : String
  order : List String
  binderState : S
  binderStep : S → Q → String → Q × S

/-- `PreparedQueryAs::new`, identical in structure to `PreparedQuery::new`. -/
def PreparedQueryAs.new {S Q R : Type} (template : String) (s : S)
    (f : S → Q → String → Q × S) : Except Error (PreparedQueryAs S Q R) := do
  let rx ← compilePlaceholderRegex
  let order := ((rx template.data).2).map (fun cs => String.mk cs)
  let sql ← build_query template
  .ok ⟨sql, order, s, f⟩

/-- `PreparedQueryAs::fetch_all`: bind, then run the engine's fetch-all
capability, which produces every decoded row (`run` embeds
`q.fetch_all(executor)`); empty result sets are not an error. -/
def PreparedQueryAs.fetch_all {S Q R : Type} (st : PreparedQueryAs S Q R)
    (mkQuery : String → Q) (run : Q → Except String (List R)) :
    Except Error (List R) × PreparedQueryAs S Q R :=
  let qs := bindLoop st.binderStep (mkQuery st.sql) st.binderState st.order
  ((run qs.1).mapError Error.Database, { st with binderState := qs.2 })

/-- Modelled from the spec: the engine capability behind sqlx's
`fetch_one`, which is not part of this repository (the source only
delegates: `Ok(q.fetch_one(executor).await?)`).  Spec section 4.4:
"succeeds only if exactly one row is produced; zero rows is an error
(no rows), more than one row is an error (too many rows)". -/
def engineFetchOne {R : Type} : List R → Except String R
  | [] => .error "no rows returned by a query that expected exactly one"
  | [r] => .ok r
  | _ :: _ :: _ => .error "query returned more than one row"

/-- Modelled from the spec: the engine capability behind sqlx's
`fetch_optional`, which is not part of this repository.  Spec section 4.4:
"zero rows yields an absent value; exactly one row yields the decoded
value; more than one row is an error, identical to fetch_one's error for
that case". -/
def engineFetchOptional {R : Type} : List R → Except String (Option R)
  | [] => .ok none
  | [r] => .ok (some r)
  | _ :: _ :: _ => .error "query returned more than one row"

/-- `PreparedQueryAs::fetch_one`: bind, run the engine producing decoded
rows, and apply the engine's exactly-one-row rule; every engine-side
failure is wrapped as `Error.Database`. -/
def PreparedQueryAs.fetch_one {S Q R : Type} (st : PreparedQueryAs S Q R)
    (mkQuery : String → Q) (run : Q → Except String (List R)) :
    Except Error R × PreparedQueryAs S Q R :=
  let qs := bindLoop st.binderStep (mkQuery st.sql) st.binderState st.order
  (((run qs.1).bind engineFetchOne).mapError Error.Database,
    { st with binderState := qs.2 })

/-- `PreparedQueryAs::fetch_optional`: bind, run the engine, and apply the
engine's at-most-one-row rule. -/
def PreparedQueryAs.fetch_optional {S Q R : Type} (st : PreparedQueryAs S Q R)
    (mkQuery : String → Q) (run : Q → Except String (List R)) :
    Except Error (Option R) × PreparedQueryAs S Q R :=
  let qs := bindLoop st.binderStep (mkQuery st.sql) st.binderState st.order
  (((run qs.1).bind engineFetchOptional).mapError Error.Database,
    { st with binderState := qs.2 })

/-- Position `i` of template `t` begins a placeholder occurrence: the
character there is a colon and the next character is a word character.
This formalizes the spec's "scans the template left to right for substrings
matching colon followed by one or more alphanumeric/underscore
characters". -/
def startsPH (t : List Char) (i : Nat) : Bool :=
  match t.get? i, t.get? (i + 1) with
  | some c, some d => c == ':' && isWordChar d
  | _, _ => false

/-- All placeholder start positions of a template, in increasing
(left-to-right) textual order. -/
def matchStarts (t : List Char) : List Nat :=
  (List.range t.length).filter (startsPH t)

/-- The placeholder occurrence beginning at position `i`: the colon
verbatim, followed by the maximal run of word characters after it
(the spec's "verbatim, including the leading marker character" and the
greedy `+` of the pattern). -/
def matchAt (t : List Char) (i : Nat) : List Char :=
  ':' :: (t.drop (i + 1)).takeWhile isWordChar

/-- An instrumented binder: performs `g` while logging each invocation as
the pair (builder passed in, key passed in), in invocation order. -/
def logStep {Q : Type} (g : Q → String → Q) :
    List (Q × String) → Q → String → Q × List (Q × String) :=
  fun log q key => (g q key, log ++ [(q, key)])

/-- The expected invocation log of a binder `g` replayed from builder `q`
over a key list: one entry per key occurrence, in order, pairing each key
with the builder accumulated by the previous invocations. -/
def bindTrace {Q : Type} (g : Q → String → Q) : Q → List String → List (Q × String)
  | _, [] => []
  | q, key :: keys => (q, key) :: bindTrace g (g q key) keys

/-! ### Scanner lemmas -/

theorem isWordChar_colon : isWordChar ':' = false := by decide

theorem isWordChar_qmark : isWordChar '?' = false := by decide

/-- Inside a match, the scanner consumes the maximal word run, emits one
marker and the match (colon, then accumulated and consumed word
characters), and resumes outside-of-match scanning at the first non-word
character. -/
theorem scanM_some (l : List Char) : ∀ acc : List Char,
    scanM (some acc) l =
      ('?' :: (scanM none (l.dropWhile isWordChar)).1,
        (':' :: (acc.reverse ++ l.takeWhile isWordChar))
          :: (scanM none (l.dropWhile isWordChar)).2) := by
  induction l with
  | nil => intro acc; simp [scanM]
  | cons c rest ih =>
    intro acc
    by_cases hw : isWordChar c
    · rw [show scanM (some acc) (c :: rest) = scanM (some (c :: acc)) rest by
        simp [scanM, hw]]
      rw [ih (c :: acc)]
      simp [List.takeWhile_cons, List.dropWhile_cons, hw]
    · have hwf : isWordChar c = false := by simpa using hw
      by_cases he : isEnter c rest
      · have hrw : scanM (some acc) (c :: rest) =
            ('?' :: (scanM (some []) rest).1,
              (':' :: acc.reverse) :: (scanM (some []) rest).2) := by
          simp [scanM, hwf, he]
        have hnone : scanM none (c :: rest) = scanM (some []) rest := by
          simp [scanM, he]
        rw [hrw]
        simp [List.takeWhile_cons, List.dropWhile_cons, hwf, hnone]
      · have hef : isEnter c rest = false := by simpa using he
        have hrw : scanM (some acc) (c :: rest) =
            ('?' :: c :: (scanM none rest).1,
              (':' :: acc.reverse) :: (scanM none rest).2) := by
          simp [scanM, hwf, hef]
        have hnone : scanM none (c :: rest) =
            (c :: (scanM none rest).1, (scanM none rest).2) := by
          simp [scanM, hef]
        rw [hrw]
        simp [List.takeWhile_cons, List.dropWhile_cons, hwf, hnone]

theorem scan_nil : scan [] = ([], []) := rfl

/-- Equation of the scanner at a character that does not begin a match:
the character is copied verbatim and no match is recorded. -/
theorem scan_cons_no {c : Char} {rest : List Char} (h : isEnter c rest = false) :
    scan (c :: rest) = (c :: (scan rest).1, (scan rest).2) := by
  simp [scan, scanM, h]

/-- Equation of the scanner at a colon followed by a word character: the
maximal word run after the colon forms the match, a single marker replaces
it, and scanning resumes after the run. -/
theorem scan_enter {rest : List Char} (h : rest.head?.any isWordChar = true) :
    scan (':' :: rest) =
      ('?' :: (scan (rest.dropWhile isWordChar)).1,
        (':' :: rest.takeWhile isWordChar)
          :: (scan (rest.dropWhile isWordChar)).2) := by
  have he : isEnter ':' rest = true := by simp [isEnter, h]
  show scanM none (':' :: rest) = _
  rw [show scanM none (':' :: rest) = scanM (some []) rest by simp [scanM, he]]
  rw [scanM_some rest []]
  simp [scan]

/-! ### Placeholder-occurrence lemmas -/

theorem filter_map_eq {α β : Type} (f : α → β) (p : β → Bool) (l : List α) :
    (l.map f).filter p = (l.filter (fun a => p (f a))).map f := by
  induction l with
  | nil => rfl
  | cons a l ih =>
    by_cases h : p (f a) <;> simp [List.filter_cons, h, ih]

theorem startsPH_cons_zero (c : Char) (l : List Char) :
    startsPH (c :: l) 0 = isEnter c l := by
  cases l with
  | nil => simp [startsPH, isEnter]
  | cons d l => simp [startsPH, isEnter, Option.any]

theorem startsPH_cons_succ (c : Char) (l : List Char) (i : Nat) :
    startsPH (c :: l) (i + 1) = startsPH l i := by
  simp [startsPH]

theorem matchStarts_nil : matchStarts [] = [] := rfl

theorem matchStarts_cons (c : Char) (l : List Char) :
    matchStarts (c :: l) =
      (if isEnter c l then [0] else []) ++ (matchStarts l).map (fun i => i + 1) := by
  have hsh : (List.range l.length).filter (fun i => startsPH (c :: l) (i + 1)) =
      (List.range l.length).filter (startsPH l) := by
    apply List.filter_congr
    intro i _
    exact startsPH_cons_succ c l i
  unfold matchStarts
  rw [List.length_cons, List.range_succ_eq_map, List.filter_cons, startsPH_cons_zero,
    filter_map_eq]
  simp only [Nat.succ_eq_add_one]
  rw [hsh]
  by_cases h : isEnter c l <;> simp [h]

/-- A run of word characters prefixed to a template shifts every
placeholder start position by the run's length and creates none. -/
theorem matchStarts_word_append (w r : List Char) (hw : ∀ c ∈ w, isWordChar c) :
    matchStarts (w ++ r) = (matchStarts r).map (fun i => i + w.length) := by
  induction w with
  | nil => simp
  | cons a w ih =>
    have ha : isWordChar a := hw a (by simp)
    have hane : (a == ':') = false := by
      cases hq : a == ':'
      · rfl
      · exfalso
        have : a = ':' := by simpa using hq
        rw [this, isWordChar_colon] at ha
        exact Bool.noConfusion ha
    have hent : isEnter a (w ++ r) = false := by simp [isEnter, hane]
    rw [List.cons_append, matchStarts_cons, hent]
    rw [ih (fun c hc => hw c (by simp [hc]))]
    simp only [List.nil_append, List.map_map, List.length_cons]
    apply List.map_congr_left
    intro i _
    simp
    omega

theorem matchAt_cons_succ (c : Char) (l : List Char) (i : Nat) :
    matchAt (c :: l) (i + 1) = matchAt l i := by
  simp [matchAt]

theorem matchAt_zero_colon (rest : List Char) :
    matchAt (':' :: rest) 0 = ':' :: rest.takeWhile isWordChar := by
  simp [matchAt]

theorem drop_word_append {α : Type} (w r : List α) (n : Nat) :
    (w ++ r).drop (w.length + n) = r.drop n := by
  induction w with
  | nil => simp
  | cons a w ih =>
    have h : (a :: w).length + n = (w.length + n) + 1 := by
      simp [List.length_cons]
      omega
    rw [h, List.cons_append, List.drop_succ_cons, ih]

theorem matchAt_shift (w r : List Char) (i : Nat) :
    matchAt (':' :: (w ++ r)) (i + w.length + 1) = matchAt r i := by
  unfold matchAt
  have h1 : i + w.length + 1 + 1 = (w.length + (i + 1)) + 1 := by omega
  rw [h1, List.drop_succ_cons, drop_word_append]

theorem length_dropWhile_le {α : Type} (p : α → Bool) (l : List α) :
    (l.dropWhile p).length ≤ l.length := by
  induction l with
  | nil => simp
  | cons a l ih =>
    rw [List.dropWhile_cons]
    by_cases h : p a
    · simp only [h, if_true]
      exact Nat.le_succ_of_le ih
    · simp [h]

/-- Assembly step for the entering case of the scanner correctness proof:
a template of the form colon, word run `w`, remainder `r` (with `w`
maximal) has the occurrence `':' :: w` at position zero followed by the
occurrences of `r` shifted past the run. -/
theorem scan_order_enter_aux (w r : List Char) (hw : ∀ x ∈ w, isWordChar x)
    (h0 : isEnter ':' (w ++ r) = true)
    (htw : (w ++ r).takeWhile isWordChar = w)
    (ih : (scan r).2 = (matchStarts r).map (matchAt r)) :
    (':' :: w) :: (scan r).2 =
      (matchStarts (':' :: (w ++ r))).map (matchAt (':' :: (w ++ r))) := by
  rw [matchStarts_cons, h0, if_pos rfl]
  rw [matchStarts_word_append w r hw]
  rw [List.map_append, List.map_map, List.map_map]
  have hzero : matchAt (':' :: (w ++ r)) 0 = ':' :: w := by
    rw [matchAt_zero_colon, htw]
  have hcomp : (matchStarts r).map
        ((matchAt (':' :: (w ++ r)) ∘ fun i => i + 1) ∘ fun i => i + w.length)
      = (matchStarts r).map (matchAt r) := by
    apply List.map_congr_left
    intro i _
    simp only [Function.comp_apply]
    exact matchAt_shift w r i
  simp only [List.map_cons, List.map_nil, hzero]
  rw [hcomp, ih]
  simp

/-- The recorded match list of the scanner is exactly the placeholder
occurrences of the template: the occurrences beginning at each start
position, in left-to-right order, each taken verbatim with its maximal
word run. -/
theorem scan_order_spec : ∀ l : List Char,
    (scan l).2 = (matchStarts l).map (matchAt l)
  | [] => by simp [scan_nil, matchStarts_nil]
  | c :: rest => by
    by_cases he : isEnter c rest = true
    · have hc : c = ':' := by
        have := he
        unfold isEnter at this
        have hcc : (c == ':') = true := by
          cases hq : c == ':'
          · rw [hq] at this; simp at this
          · rfl
        simpa using hcc
      subst hc
      have hw : rest.head?.any isWordChar = true := by
        have := he
        unfold isEnter at this
        cases hh : rest.head?.any isWordChar
        · rw [hh] at this; simp at this
        · rfl
      rw [scan_enter hw]
      have hsplit : rest.takeWhile isWordChar ++ rest.dropWhile isWordChar = rest :=
        List.takeWhile_append_dropWhile isWordChar rest
      have hword : ∀ x ∈ rest.takeWhile isWordChar, isWordChar x :=
        fun x hx => List.mem_takeWhile_imp hx
      have h0 : isEnter ':' (rest.takeWhile isWordChar ++ rest.dropWhile isWordChar) = true := by
        rw [hsplit]; exact he
      have htw : (rest.takeWhile isWordChar ++ rest.dropWhile isWordChar).takeWhile isWordChar
          = rest.takeWhile isWordChar := by
        rw [hsplit]
      conv_rhs => rw [← hsplit]
      exact scan_order_enter_aux (rest.takeWhile isWordChar) (rest.dropWhile isWordChar)
        hword h0 htw (scan_order_spec (rest.dropWhile isWordChar))
    · have hef : isEnter c rest = false := by simpa using he
      rw [scan_cons_no hef, matchStarts_cons, hef]
      simp only [Bool.false_eq_true, if_false, List.nil_append, List.map_map]
      have hcomp : (matchStarts rest).map (matchAt (c :: rest) ∘ fun i => i + 1)
          = (matchStarts rest).map (matchAt rest) := by
        apply List.map_congr_left
        intro i _
        exact matchAt_cons_succ c rest i
      rw [hcomp, scan_order_spec rest]
termination_by l => l.length
decreasing_by
  · exact Nat.lt_succ_of_le (length_dropWhile_le _ _)
  · simp

theorem count_word_run {w : List Char} (hw : ∀ x ∈ w, isWordChar x)
    {c : Char} (hc : isWordChar c = false) : w.count c = 0 := by
  rw [List.count_eq_zero]
  intro hmem
  rw [hw c hmem] at hc
  exact Bool.noConfusion hc

/-- Marker counting: the scanner's output contains one question mark per
recorded match, on top of the question marks already present in the
template. -/
theorem scan_count_marker : ∀ l : List Char,
    ((scan l).1).count '?' = l.count '?' + ((scan l).2).length
  | [] => by simp [scan_nil]
  | c :: rest => by
    by_cases he : isEnter c rest = true
    · have hc : c = ':' := by
        have hcc : (c == ':') = true := by
          have := he
          unfold isEnter at this
          cases hq : c == ':'
          · rw [hq] at this; simp at this
          · rfl
        simpa using hcc
      subst hc
      have hw : rest.head?.any isWordChar = true := by
        have := he
        unfold isEnter at this
        cases hh : rest.head?.any isWordChar
        · rw [hh] at this; simp at this
        · rfl
      rw [scan_enter hw]
      have hword : ∀ x ∈ rest.takeWhile isWordChar, isWordChar x :=
        fun x hx => List.mem_takeWhile_imp hx
      have hsplit : rest.takeWhile isWordChar ++ rest.dropWhile isWordChar = rest :=
        List.takeWhile_append_dropWhile isWordChar rest
      have hrest : rest.count '?' = (rest.dropWhile isWordChar).count '?' := by
        conv_lhs => rw [← hsplit]
        rw [List.count_append, count_word_run hword isWordChar_qmark]
        simp
      have ih := scan_count_marker (rest.dropWhile isWordChar)
      simp only [List.count_cons, List.length_cons]
      rw [ih, hrest]
      simp
      omega
    · have hef : isEnter c rest = false := by simpa using he
      rw [scan_cons_no hef]
      have ih := scan_count_marker rest
      simp only [List.count_cons]
      rw [ih]
      omega
termination_by l => l.length
decreasing_by
  · exact Nat.lt_succ_of_le (length_dropWhile_le _ _)
  · simp

/-- Colon conservation: every recorded match consumes exactly one colon of
the template; every other colon is copied verbatim into the output. -/
theorem scan_count_colon : ∀ l : List Char,
    ((scan l).1).count ':' + ((scan l).2).length = l.count ':'
  | [] => by simp [scan_nil]
  | c :: rest => by
    by_cases he : isEnter c rest = true
    · have hc : c = ':' := by
        have hcc : (c == ':') = true := by
          have := he
          unfold isEnter at this
          cases hq : c == ':'
          · rw [hq] at this; simp at this
          · rfl
        simpa using hcc
      subst hc
      have hw : rest.head?.any isWordChar = true := by
        have := he
        unfold isEnter at this
        cases hh : rest.head?.any isWordChar
        · rw [hh] at this; simp at this
        · rfl
      rw [scan_enter hw]
      have hword : ∀ x ∈ rest.takeWhile isWordChar, isWordChar x :=
        fun x hx => List.mem_takeWhile_imp hx
      have hsplit : rest.takeWhile isWordChar ++ rest.dropWhile isWordChar = rest :=
        List.takeWhile_append_dropWhile isWordChar rest
      have hrest : rest.count ':' = (rest.dropWhile isWordChar).count ':' := by
        conv_lhs => rw [← hsplit]
        rw [List.count_append, count_word_run hword isWordChar_colon]
        simp
      have ih := scan_count_colon (rest.dropWhile isWordChar)
      simp only [List.count_cons, List.length_cons]
      rw [hrest]
      simp
      omega
    · have hef : isEnter c rest = false := by simpa using he
      rw [scan_cons_no hef]
      have ih := scan_count_colon rest
      simp only [List.count_cons]
      omega
termination_by l => l.length
decreasing_by
  · exact Nat.lt_succ_of_le (length_dropWhile_le _ _)
  · simp

/-- A template with no placeholder start position is copied unchanged and
yields no matches. -/
theorem scan_no_match : ∀ l : List Char, matchStarts l = [] → scan l = (l, [])
  | [], _ => rfl
  | c :: rest, h => by
    rw [matchStarts_cons] at h
    by_cases he : isEnter c rest = true
    · rw [he, if_pos rfl] at h
      exact absurd h (by simp)
    · have hef : isEnter c rest = false := by simpa using he
      rw [hef] at h
      simp only [Bool.false_eq_true, if_false, List.nil_append, List.map_eq_nil_iff] at h
      rw [scan_cons_no hef, scan_no_match rest h]

/-! ### Binder replay lemmas -/

theorem bindLoop_logStep {Q : Type} (g : Q → String → Q) :
    ∀ (keys : List String) (q : Q) (log : List (Q × String)),
      (bindLoop (logStep g) q log keys).2 = log ++ bindTrace g q keys := by
  intro keys
  induction keys with
  | nil => intro q log; simp [bindLoop, bindTrace]
  | cons k keys ih =>
    intro q log
    rw [show bindLoop (logStep g) q log (k :: keys)
        = bindLoop (logStep g) (g q k) (log ++ [(q, k)]) keys from rfl]
    rw [ih]
    simp [bindTrace]

theorem bindTrace_length {Q : Type} (g : Q → String → Q) :
    ∀ (keys : List String) (q : Q), (bindTrace g q keys).length = keys.length := by
  intro keys
  induction keys with
  | nil => intro q; rfl
  | cons k keys ih => intro q; simp [bindTrace, ih]

theorem bindTrace_get? {Q : Type} (g : Q → String → Q) :
    ∀ (keys : List String) (q : Q) (i : Nat) (h : i < keys.length),
      (bindTrace g q keys).get? i
        = some (List.foldl g q (keys.take i), keys.get ⟨i, h⟩) := by
  intro keys
  induction keys with
  | nil => intro q i h; exact absurd h (by simp)
  | cons k keys ih =>
    intro q i h
    cases i with
    | zero => simp [bindTrace]
    | succ i =>
      have h' : i < keys.length := by
        simpa using h
      rw [show bindTrace g q (k :: keys) = (q, k) :: bindTrace g (g q k) keys from rfl]
      rw [List.get?_cons_succ, ih (g q k) i h']
      simp [List.take_succ_cons]

/-! ### Construction characterization -/

/-- `PreparedQuery::new` never fails and stores the scanner's two results:
the marker-replaced template as `sql` and the match list as `order`. -/
theorem new_eq_prepared_query {S Q : Type} (template : String) (s : S)
    (f : S → Q → String → Q × S) :
    PreparedQuery.new template s f =
      .ok ⟨String.mk (scan template.data).1,
        ((scan template.data).2).map (fun cs => String.mk cs), s, f⟩ := rfl

/-- `PreparedQueryAs::new` never fails and stores the scanner's two
results, exactly as `PreparedQuery::new`. -/
theorem new_eq_prepared_query_as {S Q R : Type} (template : String) (s : S)
    (f : S → Q → String → Q × S) :
    (PreparedQueryAs.new template s f : Except Error (PreparedQueryAs S Q R)) =
      .ok ⟨String.mk (scan template.data).1,
        ((scan template.data).2).map (fun cs => String.mk cs), s, f⟩ := rfl

/-! ### Claims -/

/-- C1, counterexample: the claim "the number of question-mark characters
in the stored positional_sql equals the length of the stored order list"
fails on the template consisting of a single literal question mark: the
constructed statement stores positional_sql `?` (one marker character) but
an empty order list. -/
theorem C1_marker_count_counterexample :
    (PreparedQuery.new "?" () (fun (_ : Unit) (q : Unit) _ => (q, ()))).map
        (fun st => (st.sql.data.count '?', st.order.length)) = .ok (1, 0)
      ∧ (1 : Nat) ≠ 0 := by
  constructor
  · rfl
  · decide

/-- C1 as amended: for every template, the number of question-mark
characters in the stored positional_sql equals the number of question
marks already present in the template plus the length of the stored order
list; in particular the original claim holds for every template containing
no literal question mark. -/
theorem C1_amended_marker_count {S Q : Type} (template : String) (s : S)
    (f : S → Q → String → Q × S) (st : PreparedQuery S Q)
    (h : PreparedQuery.new template s f = .ok st) :
    st.sql.data.count '?' = template.data.count '?' + st.order.length := by
  rw [new_eq_prepared_query] at h
  injection h with h
  subst h
  show ((scan template.data).1).count '?'
      = template.data.count '?' + (((scan template.data).2).map _).length
  rw [scan_count_marker, List.length_map]

/-- Witness for C1 as amended, at the template `x = :x`. -/
theorem C1_amended_marker_count_witness :
    ("x = ?" : String).data.count '?' = ("x = :x" : String).data.count '?' + 1 :=
  C1_amended_marker_count "x = :x" () (fun (_ : Unit) (q : Unit) _ => (q, ()))
    ⟨"x = ?", [":x"], (), fun _ q _ => (q, ())⟩ rfl

/-- C2: the order list produced at construction is exactly the list of
placeholder occurrences of the template: for each placeholder start
position, in left-to-right textual order (duplicates preserved, since
every occurrence has its own start position), the occurrence text verbatim
including the leading colon. -/
theorem C2_order_verbatim {S Q R : Type} (template : String) (s : S)
    (f : S → Q → String → Q × S) (st : PreparedQuery S Q)
    (stA : PreparedQueryAs S Q R)
    (h1 : PreparedQuery.new template s f = .ok st)
    (h2 : PreparedQueryAs.new template s f = .ok stA) :
    st.order = (matchStarts template.data).map
        (fun i => String.mk (matchAt template.data i))
      ∧ stA.order = (matchStarts template.data).map
        (fun i => String.mk (matchAt template.data i)) := by
  rw [new_eq_prepared_query] at h1
  rw [new_eq_prepared_query_as] at h2
  injection h1 with h1
  injection h2 with h2
  subst h1
  subst h2
  constructor
  · show ((scan template.data).2).map _ = _
    rw [scan_order_spec, List.map_map]
    rfl
  · show ((scan template.data).2).map _ = _
    rw [scan_order_spec, List.map_map]
    rfl

/-- Witness for C2, at the template `:id AND :id` with a duplicated name:
both occurrences are listed, in order, verbatim. -/
theorem C2_order_verbatim_witness :
    ([":id", ":id"] : List String) = (matchStarts (":id AND :id" : String).data).map
        (fun i => String.mk (matchAt (":id AND :id" : String).data i)) :=
  (C2_order_verbatim ":id AND :id" () (fun (_ : Unit) (q : Unit) _ => (q, ()))
    ⟨"? AND ?", [":id", ":id"], (), fun _ q _ => (q, ())⟩
    (⟨"? AND ?", [":id", ":id"], (), fun _ q _ => (q, ())⟩ : PreparedQueryAs Unit Unit Unit)
    rfl rfl).1

/-- C5: a template with no placeholder start position (no colon followed
by a word character) is left unchanged by construction — positional_sql
equals the template and the order list is empty. -/
theorem C5_no_placeholder_identity {S Q : Type} (template : String) (s : S)
    (f : S → Q → String → Q × S) (h : matchStarts template.data = []) :
    build_query template = .ok template
      ∧ PreparedQuery.new template s f = .ok ⟨template, [], s, f⟩ := by
  obtain ⟨l⟩ := template
  have hscan : scan l = (l, []) := scan_no_match l h
  constructor
  · show Except.ok (String.mk (scan l).1) = _
    rw [hscan]
  · rw [new_eq_prepared_query]
    rw [hscan]
    rfl

/-- Witness for C5, at the placeholder-free template `SELECT 1`. -/
theorem C5_no_placeholder_identity_witness :
    build_query "SELECT 1" = .ok "SELECT 1"
      ∧ PreparedQuery.new "SELECT 1" () (fun (_ : Unit) (q : Unit) _ => (q, ()))
        = .ok ⟨"SELECT 1", [], (), fun _ q _ => (q, ())⟩ :=
  C5_no_placeholder_identity "SELECT 1" () (fun _ q _ => (q, ())) (by decide)

/-- C6: construction is total — the parse-error branch is unreachable for
every input template, because the only fallible step is compiling the
fixed placeholder pattern, which succeeds; both constructors and
`build_query` therefore return successfully on every template. -/
theorem C6_construction_total {S Q R : Type} (template : String) (s : S)
    (f : S → Q → String → Q × S) :
    compilePlaceholderRegex = .ok scan
      ∧ (∃ st : PreparedQuery S Q, PreparedQuery.new template s f = .ok st)
      ∧ (∃ stA : PreparedQueryAs S Q R, PreparedQueryAs.new template s f = .ok stA)
      ∧ (∃ out : String, build_query template = .ok out) :=
  ⟨rfl, ⟨_, rfl⟩, ⟨_, rfl⟩, ⟨_, rfl⟩⟩

/-- The claim's description of placeholder replacement, as a relation
between a template, a positional output, and an order list: the template
decomposes left to right into kept characters — where a kept colon is
never immediately followed by a word character — copied verbatim into the
output with no order entry, and placeholder occurrences, each a colon
followed by a nonempty run of word characters that is maximal (the next
template character is not a word character), replaced by exactly one
marker and recorded as exactly one verbatim order entry. -/
inductive PHDecomp : List Char → List Char → List String → Prop where
  | nil : PHDecomp [] [] []
  | keep (c : Char) (t out : List Char) (ord : List String)
      (hc : c = ':' → (t.head?).any isWordChar = false)
      (h : PHDecomp t out ord) : PHDecomp (c :: t) (c :: out) ord
  | ph (name t out : List Char) (ord : List String)
      (hne : name ≠ [])
      (hw : ∀ x ∈ name, isWordChar x)
      (hmax : (t.head?).any isWordChar = false)
      (h : PHDecomp t out ord) :
      PHDecomp (':' :: (name ++ t)) ('?' :: out) (String.mk (':' :: name) :: ord)

theorem head_dropWhile_any_false {α : Type} (p : α → Bool) :
    ∀ l : List α, (((l.dropWhile p).head?).any p) = false := by
  intro l
  induction l with
  | nil => rfl
  | cons a l ih =>
    rw [List.dropWhile_cons]
    by_cases hp : p a
    · simp only [hp, if_true]
      exact ih
    · simp [Option.any, hp]

theorem takeWhile_ne_nil_of_head {l : List Char}
    (h : (l.head?).any isWordChar = true) : l.takeWhile isWordChar ≠ [] := by
  cases l with
  | nil => simp [Option.any] at h
  | cons d l =>
    have hd : isWordChar d = true := by simpa [Option.any] using h
    rw [List.takeWhile_cons, hd]
    simp

/-- The scanner realizes the claim's decomposition on every template. -/
theorem scan_decomp : ∀ l : List Char,
    PHDecomp l (scan l).1 (((scan l).2).map (fun cs => String.mk cs))
  | [] => by
    rw [scan_nil]
    exact PHDecomp.nil
  | c :: rest => by
    by_cases he : isEnter c rest = true
    · have hc : c = ':' := by
        have hcc : (c == ':') = true := by
          have := he
          unfold isEnter at this
          cases hq : c == ':'
          · rw [hq] at this; simp at this
          · rfl
        simpa using hcc
      subst hc
      have hw : rest.head?.any isWordChar = true := by
        have := he
        unfold isEnter at this
        cases hh : rest.head?.any isWordChar
        · rw [hh] at this; simp at this
        · rfl
      rw [scan_enter hw]
      have hsplit : rest.takeWhile isWordChar ++ rest.dropWhile isWordChar = rest :=
        List.takeWhile_append_dropWhile isWordChar rest
      rw [show (':' :: rest : List Char)
          = ':' :: (rest.takeWhile isWordChar ++ rest.dropWhile isWordChar) by
        rw [hsplit]]
      exact PHDecomp.ph (rest.takeWhile isWordChar) (rest.dropWhile isWordChar)
        (scan (rest.dropWhile isWordChar)).1
        (((scan (rest.dropWhile isWordChar)).2).map (fun cs => String.mk cs))
        (takeWhile_ne_nil_of_head hw)
        (fun x hx => List.mem_takeWhile_imp hx)
        (head_dropWhile_any_false isWordChar rest)
        (scan_decomp (rest.dropWhile isWordChar))
    · have hef : isEnter c rest = false := by simpa using he
      rw [scan_cons_no hef]
      refine PHDecomp.keep c rest (scan rest).1
        (((scan rest).2).map (fun cs => String.mk cs)) ?_ (scan_decomp rest)
      intro hcol
      subst hcol
      unfold isEnter at hef
      simpa using hef
termination_by l => l.length
decreasing_by
  · exact Nat.lt_succ_of_le (length_dropWhile_le _ _)
  · simp

/-- C10: for every template, a colon not immediately followed by a word
character is left unchanged in positional_sql and adds no entry to order,
and every placeholder match is maximal, consuming the longest run of word
characters after its colon: construction decomposes the template per
`PHDecomp` — kept characters (a kept colon never followed by a word
character) copied verbatim with no order entry, and placeholder matches
(colon plus nonempty word run whose following character is not a word
character) each replaced by one marker and recorded as one verbatim
entry.  In particular `:ab` is the single placeholder `:ab`, never `:a`
followed by text, and `::name` keeps its first colon and yields only
`:name`. -/
theorem C10_colon_handling {S Q : Type} (template : String) (s : S)
    (f : S → Q → String → Q × S) (st stab stcc : PreparedQuery S Q)
    (h : PreparedQuery.new template s f = .ok st)
    (hab : PreparedQuery.new ":ab" s f = .ok stab)
    (hcc : PreparedQuery.new "::name" s f = .ok stcc) :
    PHDecomp template.data st.sql.data st.order
      ∧ (stab.sql = "?" ∧ stab.order = [":ab"])
      ∧ (stcc.sql = ":?" ∧ stcc.order = [":name"]) := by
  rw [new_eq_prepared_query] at h hab hcc
  injection h with h
  injection hab with hab
  injection hcc with hcc
  subst h
  subst hab
  subst hcc
  refine ⟨?_, by constructor <;> rfl, by constructor <;> rfl⟩
  show PHDecomp template.data (String.mk (scan template.data).1).data
    (((scan template.data).2).map (fun cs => String.mk cs))
  exact scan_decomp template.data

/-- Witness for C10 at the template `: x`: the colon is not followed by a
word character, so it is kept verbatim in the unchanged output with an
empty order list. -/
theorem C10_colon_handling_witness :
    PHDecomp (": x" : String).data (": x" : String).data ([] : List String) :=
  (C10_colon_handling ": x" () (fun (_ : Unit) (q : Unit) _ => (q, ()))
    ⟨": x", [], (), fun _ q _ => (q, ())⟩
    ⟨"?", [":ab"], (), fun _ q _ => (q, ())⟩
    ⟨":?", [":name"], (), fun _ q _ => (q, ())⟩
    rfl rfl rfl).1

/-- C3: per single call to `execute`, `fetch_all`, `fetch_one` or
`fetch_optional`, a binder instrumented to log its invocations is invoked
exactly `length(order)` times, once per occurrence in `order`: its final
log is the canonical replay trace, whose length is `length(order)` and
whose `i`-th entry pairs the `i`-th entry of `order` with the builder
produced by the previous invocations (the fold of the binder over the
first `i` entries, started from the freshly constructed builder). -/
theorem C3_binder_replay {Q A R : Type} (g : Q → String → Q) (sql : String)
    (order : List String) (mkQuery : String → Q) (run : Q → Except String A)
    (runAs : Q → Except String (List R)) :
    ((PreparedQuery.execute ⟨sql, order, [], logStep g⟩ mkQuery run).2.binderState
        = bindTrace g (mkQuery sql) order
      ∧ (PreparedQueryAs.fetch_all
          (⟨sql, order, [], logStep g⟩ : PreparedQueryAs (List (Q × String)) Q R)
          mkQuery runAs).2.binderState = bindTrace g (mkQuery sql) order
      ∧ (PreparedQueryAs.fetch_one
          (⟨sql, order, [], logStep g⟩ : PreparedQueryAs (List (Q × String)) Q R)
          mkQuery runAs).2.binderState = bindTrace g (mkQuery sql) order
      ∧ (PreparedQueryAs.fetch_optional
          (⟨sql, order, [], logStep g⟩ : PreparedQueryAs (List (Q × String)) Q R)
          mkQuery runAs).2.binderState = bindTrace g (mkQuery sql) order)
      ∧ (bindTrace g (mkQuery sql) order).length = order.length
      ∧ ∀ i (h : i < order.length),
          (bindTrace g (mkQuery sql) order).get? i
            = some (List.foldl g (mkQuery sql) (order.take i), order.get ⟨i, h⟩) := by
  have hlog : ∀ q : Q, (bindLoop (logStep g) q [] order).2 = bindTrace g q order := by
    intro q
    rw [bindLoop_logStep g order q []]
    simp
  exact ⟨⟨hlog _, hlog _, hlog _, hlog _⟩, bindTrace_length g order _,
    fun i h => bindTrace_get? g order _ i h⟩

/-- Witness for C3: replaying a counting binder over the two-entry order
list `[:a, :b]`, the second invocation receives the second entry and the
builder produced by the first invocation. -/
theorem C3_binder_replay_witness :
    (bindTrace (fun (q : Nat) _ => q + 1) 0 [":a", ":b"]).get? 1
      = some (List.foldl (fun (q : Nat) _ => q + 1) 0 (List.take 1 [":a", ":b"]),
          List.get [":a", ":b"] ⟨1, by decide⟩) :=
  (C3_binder_replay (fun (q : Nat) _ => q + 1) "s" [":a", ":b"] (fun _ => 0)
    (fun _ => Except.ok ()) (fun _ => Except.ok ([] : List Unit))).2.2 1 (by decide)

theorem mapError_database_shape {A : Type} (x : Except String A) (e : Error)
    (h : x.mapError Error.Database = .error e) : ∃ msg, e = .Database msg := by
  cases x with
  | ok a => exact absurd h (by simp [Except.mapError])
  | error msg =>
    refine ⟨msg, ?_⟩
    have : Except.error (Error.Database msg) = (Except.error e : Except Error A) := h
    injection this with h2
    exact h2.symm

/-- C4: no operation of the library ever returns the `UnboundPlaceholder`
error.  Construction always succeeds, and any failure of `execute` or of
the three `fetch_*` operations is the wrapped engine error
(`Error.Database`), never `Error.UnboundPlaceholder` — an unrecognized
placeholder name is simply passed through the binder and no unbound-name
check is performed before dispatch. -/
theorem C4_no_unbound_placeholder {S Q A R : Type} (template : String) (s : S)
    (f : S → Q → String → Q × S) (st : PreparedQuery S Q)
    (stA : PreparedQueryAs S Q R) (mkQuery : String → Q)
    (run : Q → Except String A) (runAs : Q → Except String (List R))
    (name : String) :
    PreparedQuery.new template s f ≠ .error (.UnboundPlaceholder name)
      ∧ (PreparedQueryAs.new template s f : Except Error (PreparedQueryAs S Q R))
          ≠ .error (.UnboundPlaceholder name)
      ∧ (PreparedQuery.execute st mkQuery run).1 ≠ .error (.UnboundPlaceholder name)
      ∧ (PreparedQueryAs.fetch_all stA mkQuery runAs).1 ≠ .error (.UnboundPlaceholder name)
      ∧ (PreparedQueryAs.fetch_one stA mkQuery runAs).1 ≠ .error (.UnboundPlaceholder name)
      ∧ (PreparedQueryAs.fetch_optional stA mkQuery runAs).1
          ≠ .error (.UnboundPlaceholder name)
      ∧ (∀ e, (PreparedQuery.execute st mkQuery run).1 = .error e
          → ∃ msg, e = .Database msg)
      ∧ (∀ e, (PreparedQueryAs.fetch_all stA mkQuery runAs).1 = .error e
          → ∃ msg, e = .Database msg)
      ∧ (∀ e, (PreparedQueryAs.fetch_one stA mkQuery runAs).1 = .error e
          → ∃ msg, e = .Database msg)
      ∧ (∀ e, (PreparedQueryAs.fetch_optional stA mkQuery runAs).1 = .error e
          → ∃ msg, e = .Database msg) := by
  have hno : ∀ {B : Type} (x : Except String B),
      x.mapError Error.Database ≠ .error (.UnboundPlaceholder name) := by
    intro B x h
    obtain ⟨msg, hmsg⟩ := mapError_database_shape x _ h
    exact Error.noConfusion hmsg
  refine ⟨?_, ?_, hno _, hno _, hno _, hno _,
    fun e => mapError_database_shape _ e, fun e => mapError_database_shape _ e,
    fun e => mapError_database_shape _ e, fun e => mapError_database_shape _ e⟩
  · rw [new_eq_prepared_query]
    intro h
    exact Except.noConfusion h
  · rw [new_eq_prepared_query_as]
    intro h
    exact Except.noConfusion h

/-- Witness for C4: a failing engine round trip surfaces as the wrapped
database error. -/
theorem C4_no_unbound_placeholder_witness :
    ∃ msg, Error.Database "connection refused" = Error.Database msg :=
  (C4_no_unbound_placeholder "t" () (fun (_ : Unit) (q : Unit) _ => (q, ()))
    ⟨"t", [], (), fun _ q _ => (q, ())⟩
    (⟨"t", [], (), fun _ q _ => (q, ())⟩ : PreparedQueryAs Unit Unit Unit)
    (fun _ => ()) (fun _ => (Except.error "connection refused" : Except String Unit))
    (fun _ => (Except.error "connection refused" : Except String (List Unit)))
    ":missing").2.2.2.2.2.2.1 (Error.Database "connection refused") rfl

/-- C7: the exactly-one-row law of `fetch_one`.  With the engine producing
a given row list, `fetch_one` errors (with a wrapped engine error) on zero
rows, returns the decoded row on exactly one row, and errors on two or
more rows. -/
theorem C7_fetch_one_cardinality {S Q R : Type} (stA : PreparedQueryAs S Q R)
    (mkQuery : String → Q) (rows : List R) :
    (rows.length = 0 → ∃ msg,
        (PreparedQueryAs.fetch_one stA mkQuery (fun _ => Except.ok rows)).1
          = .error (.Database msg))
      ∧ (∀ r, rows = [r] →
          (PreparedQueryAs.fetch_one stA mkQuery (fun _ => Except.ok rows)).1 = .ok r)
      ∧ (2 ≤ rows.length → ∃ msg,
          (PreparedQueryAs.fetch_one stA mkQuery (fun _ => Except.ok rows)).1
            = .error (.Database msg)) := by
  refine ⟨?_, ?_, ?_⟩
  · intro h0
    rw [List.length_eq_zero] at h0
    subst h0
    exact ⟨_, rfl⟩
  · intro r hr
    subst hr
    rfl
  · intro h2
    match rows, h2 with
    | r1 :: r2 :: rest, _ => exact ⟨_, rfl⟩

/-- Witness for C7: a one-row result set is returned decoded. -/
theorem C7_fetch_one_cardinality_witness :
    (PreparedQueryAs.fetch_one
      (⟨"q", [], (), fun _ q _ => (q, ())⟩ : PreparedQueryAs Unit Unit Nat)
      (fun _ => ()) (fun _ => Except.ok [5])).1 = .ok 5 :=
  (C7_fetch_one_cardinality _ _ [5]).2.1 5 rfl

/-- C8: the at-most-one-row law of `fetch_optional`.  With the engine
producing a given row list, `fetch_optional` returns the absent value
(success, not an error) on zero rows, the decoded row as a present value
on exactly one row, and errors on two or more rows. -/
theorem C8_fetch_optional_cardinality {S Q R : Type} (stA : PreparedQueryAs S Q R)
    (mkQuery : String → Q) (rows : List R) :
    (rows.length = 0 →
        (PreparedQueryAs.fetch_optional stA mkQuery (fun _ => Except.ok rows)).1
          = .ok none)
      ∧ (∀ r, rows = [r] →
          (PreparedQueryAs.fetch_optional stA mkQuery (fun _ => Except.ok rows)).1
            = .ok (some r))
      ∧ (2 ≤ rows.length → ∃ msg,
          (PreparedQueryAs.fetch_optional stA mkQuery (fun _ => Except.ok rows)).1
            = .error (.Database msg)) := by
  refine ⟨?_, ?_, ?_⟩
  · intro h0
    rw [List.length_eq_zero] at h0
    subst h0
    rfl
  · intro r hr
    subst hr
    rfl
  · intro h2
    match rows, h2 with
    | r1 :: r2 :: rest, _ => exact ⟨_, rfl⟩

/-- Witness for C8: an empty result set yields the absent value, not an
error. -/
theorem C8_fetch_optional_cardinality_witness :
    (PreparedQueryAs.fetch_optional
      (⟨"q", [], (), fun _ q _ => (q, ())⟩ : PreparedQueryAs Unit Unit Nat)
      (fun _ => ()) (fun _ => Except.ok ([] : List Nat))).1 = .ok none :=
  (C8_fetch_optional_cardinality _ _ ([] : List Nat)).1 rfl

/-- C9: frame property of the execution protocol.  `execute` and all three
`fetch_*` operations leave the statement's positional sql, order list, and
binder code unchanged; the only field of the returned statement that may
differ is the binder's own captured state. -/
theorem C9_statement_frame {S Q A R : Type} (st : PreparedQuery S Q)
    (stA : PreparedQueryAs S Q R) (mkQuery : String → Q)
    (run : Q → Except String A) (runAs : Q → Except String (List R)) :
    ((PreparedQuery.execute st mkQuery run).2.sql = st.sql
      ∧ (PreparedQuery.execute st mkQuery run).2.order = st.order
      ∧ (PreparedQuery.execute st mkQuery run).2.binderStep = st.binderStep)
      ∧ ((PreparedQueryAs.fetch_all stA mkQuery runAs).2.sql = stA.sql
        ∧ (PreparedQueryAs.fetch_all stA mkQuery runAs).2.order = stA.order
        ∧ (PreparedQueryAs.fetch_all stA mkQuery runAs).2.binderStep = stA.binderStep)
      ∧ ((PreparedQueryAs.fetch_one stA mkQuery runAs).2.sql = stA.sql
        ∧ (PreparedQueryAs.fetch_one stA mkQuery runAs).2.order = stA.order
        ∧ (PreparedQueryAs.fetch_one stA mkQuery runAs).2.binderStep = stA.binderStep)
      ∧ ((PreparedQueryAs.fetch_optional stA mkQuery runAs).2.sql = stA.sql
        ∧ (PreparedQueryAs.fetch_optional stA mkQuery runAs).2.order = stA.order
        ∧ (PreparedQueryAs.fetch_optional stA mkQuery runAs).2.binderStep
            = stA.binderStep) :=
  ⟨⟨rfl, rfl, rfl⟩, ⟨rfl, rfl, rfl⟩, ⟨rfl, rfl, rfl⟩, ⟨rfl, rfl, rfl⟩⟩

end SqlxNamedBind
